import Mathlib

/-!
Shallow embedding of the fetch-and-normalize pipeline of the Technion course
fetcher (files `technion_fetcher_full.py` and `smart_fetcher_fixed.py`).

Conventions of the embedding:
* Python strings are Lean `String`s; regular-expression operations from the
  source are translated into explicit character-list functions that realise
  exactly the (deterministic) patterns used by the code.
* Upstream HTTP queries (`QuerySource` in the spec) are abstracted as function
  parameters: the source's transport layer is explicitly out of scope.
* Python dictionaries keyed by strings are association lists with
  Python's insertion/overwrite semantics where that matters.
-/

/-- Python `\d` on the ASCII digits used by the source data. -/
def isPyDigit (c : Char) : Bool := '0' ≤ c && c ≤ '9'

/-- Python `\s` / `str.strip` whitespace class (ASCII part, which is all the
source data can contain in the relevant fields). -/
def isPyWs (c : Char) : Bool :=
  c = ' ' || c = '\t' || c = '\n' || c = '\r' || c = '\x0b' || c = '\x0c'

/-- Python `str.strip()` on a character list. -/
def pyStripL (l : List Char) : List Char :=
  ((l.dropWhile isPyWs).reverse.dropWhile isPyWs).reverse

/-- Python `str.strip()` on a string. -/
def pyStrip (s : String) : String := String.mk (pyStripL s.data)

/-- Numeric value of a list of ASCII digits, as computed by Python `int`. -/
def natOfDigits (l : List Char) : Nat :=
  l.foldl (fun n c => n * 10 + (c.toNat - '0'.toNat)) 0

/-- Matcher for the regex `(\.[1-9]+)0+$` anchored at the current position:
a dot, a nonempty run of `[1-9]`, then a nonempty run of `0` reaching the end
of the string.  Returns the replacement `\1` (dot plus the nonzero digits). -/
def matchDotNonzeroZeros : List Char → Option (List Char)
  | '.' :: rest =>
    let nz := rest.takeWhile (fun c => '1' ≤ c && c ≤ '9')
    let rem := rest.drop nz.length
    if nz ≠ [] && rem ≠ [] && rem.all (· = '0') then some ('.' :: nz) else none
  | _ => none

/-- Python `re.sub(r"(\.[1-9]+)0+$", r"\1", s)`: scan left to right for the first
position where the end-anchored pattern matches and replace it. -/
def subDotNonzeroZeros : List Char → List Char
  | [] => []
  | c :: rest =>
    match matchDotNonzeroZeros (c :: rest) with
    | some repl => repl
    | none => c :: subDotNonzeroZeros rest

/-- Matcher for the regex `\.0+$` anchored at the current position. -/
def matchDotZeros : List Char → Bool
  | '.' :: rest => rest ≠ [] && rest.all (· = '0')
  | _ => false

/-- Python `re.sub(r"\.0+$", "", s)`. -/
def subDotZeros : List Char → List Char
  | [] => []
  | c :: rest => if matchDotZeros (c :: rest) then [] else c :: subDotZeros rest

/-- The points normalization performed inline in `get_course_data`
(`technion_fetcher_full.py`, lines 519-522): strip trailing zeros after a
nonzero decimal part, then strip an all-zero decimal part. -/
def normalize_points (s : String) : String :=
  String.mk (subDotZeros (subDotNonzeroZeros s.data))

/-- Matcher for `\d\d\.\d\d\.` at the current position; returns the remainder. -/
def matchDDdotDDdot : List Char → Option (List Char)
  | d1 :: d2 :: c1 :: d3 :: d4 :: c2 :: rest =>
    if isPyDigit d1 && isPyDigit d2 && c1 = '.' && isPyDigit d3 && isPyDigit d4 && c2 = '.'
    then some rest else none
  | _ => none

/-- Python `re.sub(r"^<marker>\d\d\.\d\d\., ", "", l)` for a literal marker
(used with `"מ "` and `"עד "` in `_parse_schedule_text`). -/
def stripFromDatePrefix (marker : List Char) (l : List Char) : List Char :=
  if marker.isPrefixOf l then
    match matchDDdotDDdot (l.drop marker.length) with
    | some rest => if [',', ' '].isPrefixOf rest then rest.drop 2 else l
    | none => l
  else l

/-- Python `re.sub(r"^\d\d\.\d\d\. עד \d\d\.\d\d\., ", "", l)`. -/
def stripRangeDatePrefix (l : List Char) : List Char :=
  match matchDDdotDDdot l with
  | some rest =>
    if " עד ".data.isPrefixOf rest then
      match matchDDdotDDdot (rest.drop " עד ".data.length) with
      | some rest2 => if [',', ' '].isPrefixOf rest2 then rest2.drop 2 else l
      | none => l
    else l
  | none => l

/-- Python `re.sub(r", יוצא מן הכלל: .*$", "", l)`: cut the text from the first
occurrence of the literal marker to the end of the string. -/
def cutFromMarker (marker : List Char) : List Char → List Char
  | [] => []
  | c :: rest => if marker.isPrefixOf (c :: rest) then [] else c :: cutFromMarker marker rest

/-- Matcher for `, הכל \d+ ימים$` at the current position. -/
def matchKolSuffix (l : List Char) : Bool :=
  if ", הכל ".data.isPrefixOf l then
    let rest := l.drop ", הכל ".data.length
    let ds := rest.takeWhile isPyDigit
    decide (ds ≠ []) && decide (rest.drop ds.length = " ימים".data)
  else false

/-- Python `re.sub(r", הכל \d+ ימים$", "", l)`. -/
def cutKolSuffix : List Char → List Char
  | [] => []
  | c :: rest => if matchKolSuffix (c :: rest) then [] else c :: cutKolSuffix rest

/-- The six canonical day names plus the misspelled variant, in the order of
the regex alternation in `_parse_schedule_text` (first alternative wins; the
alternatives are pairwise prefix-incompatible, so this order is also the
backtracking-free order). -/
def dayAlternatives : List String :=
  ["רִאשׁוֹ", "ראשון", "שני", "שלישי", "רביעי", "חמישי", "שישי"]

/-- Match one of the day-name alternatives as a prefix; return it and the rest. -/
def matchDayName (l : List Char) : Option (String × List Char) :=
  match dayAlternatives.find? (fun d => d.data.isPrefixOf l) with
  | some d => some (d, l.drop d.data.length)
  | none => none

/-- Matcher for `\d\d:\d\d` at the current position; returns the matched text
and the remainder. -/
def matchHHMM : List Char → Option (String × List Char)
  | h1 :: h2 :: c :: m1 :: m2 :: rest =>
    if isPyDigit h1 && isPyDigit h2 && c = ':' && isPyDigit m1 && isPyDigit m2
    then some (String.mk [h1, h2, ':', m1, m2], rest) else none
  | _ => none

/-- The per-token regex of `_parse_schedule_text`
(`(?:יום|יוֹם) (<day>) (\d\d:\d\d)\s*-\s*(\d\d:\d\d)`, applied with `re.match`,
so trailing text is allowed), including the normalization of the misspelled
day variant to `ראשון`. -/
def matchDayTime (tok : String) : Option (String × String × String) :=
  let l := tok.data
  let afterYom : Option (List Char) :=
    if "יום ".data.isPrefixOf l then some (l.drop "יום ".data.length)
    else if "יוֹם ".data.isPrefixOf l then some (l.drop "יוֹם ".data.length)
    else none
  match afterYom with
  | none => none
  | some l1 =>
    match matchDayName l1 with
    | none => none
    | some (day, l2) =>
      match l2 with
      | ' ' :: l3 =>
        match matchHHMM l3 with
        | none => none
        | some (t1, l4) =>
          match l4.dropWhile isPyWs with
          | '-' :: l6 =>
            match matchHHMM (l6.dropWhile isPyWs) with
            | none => none
            | some (t2, _) =>
              some ((if day = "רִאשׁוֹ" then "ראשון" else day), t1, t2)
          | _ => none
      | _ => none

/-- Python `str.split(",")`: split at every comma, keeping empty pieces. -/
def splitCommaAux : List Char → List Char → List (List Char)
  | [], acc => [acc.reverse]
  | c :: rest, acc =>
    if c = ',' then acc.reverse :: splitCommaAux rest []
    else splitCommaAux rest (c :: acc)

/-- The token list of `_parse_schedule_text`: cleanup substitutions in source
order, split on commas, each token stripped. -/
def scheduleTokens (text : String) : List String :=
  let cleaned :=
    cutKolSuffix (cutFromMarker ", יוצא מן הכלל: ".data
      (stripRangeDatePrefix (stripFromDatePrefix "עד ".data
        (stripFromDatePrefix "מ ".data text.data))))
  (splitCommaAux cleaned []).map (fun t => pyStrip (String.mk t))

/-- Source `_parse_schedule_text` (`technion_fetcher_full.py`, lines 271-296): each
comma-separated token is kept exactly when it matches the day-time pattern. -/
def parse_schedule_text (text : String) : List (String × String × String) :=
  (scheduleTokens text).filterMap matchDayTime

/-- A person sub-record of the schedule expansion (`Persons/results`). -/
structure Person where
  Title : String
  FirstName : String
  LastName : String
deriving DecidableEq

/-- One meeting row (`EObjectSet/results` element) as consumed by
`get_course_schedule`. -/
structure EItem where
  CategoryText : String
  Name : String
  RoomText : String
  RoomId : String
  Otjid : String
  Persons : List Person
  ScheduleSummary : String
deriving DecidableEq

/-- One raw schedule group (`SeObjectSet` element).  The numeric field
`ZzSeSeqnr` is modelled as its parsed integer value (the source applies
`int(...)` to it). -/
structure RawSchedule where
  ZzSeSeqnr : Nat
  Name : String
  EObjectSet : List EItem
deriving DecidableEq

/-- One entry of the produced schedule list.  The source builds a dict with
Hebrew keys; the fields here are, in order: `קבוצה`, `סוג`, `יום`, `שעה`,
`בניין`, `חדר`, `מרצה/מתרגל`, `מס.`. -/
structure ScheduleEntry where
  group : Nat
  category : String
  day : String
  hour : String
  building : String
  room : Nat
  staff : String
  seq : Nat
deriving DecidableEq

/-- Source `raw_schedule_sort_key` (`technion_fetcher_full.py`, lines 317-320): the
Python key `(group_id == 0, group_id)` with `False < True` encoded as `0 < 1`,
compared lexicographically. -/
def raw_schedule_sort_key (group_id : Nat) : Nat × Nat :=
  (if group_id = 0 then 1 else 0, group_id)

/-- Lexicographic order on sort keys, as Python compares tuples. -/
def sortKeyLeB (p q : Nat × Nat) : Bool :=
  decide (p.1 < q.1) || (decide (p.1 = q.1) && decide (p.2 ≤ q.2))

/-- The total preorder on raw schedule groups induced by
`raw_schedule_sort_key`.  Python `sorted` is a stable sort with respect to
this key; `List.insertionSort` with this relation is the canonical stable
sort, hence the faithful embedding of `sorted(schedule_results, key=...)`. -/
def schedLe (a b : RawSchedule) : Prop :=
  sortKeyLeB (raw_schedule_sort_key a.ZzSeSeqnr) (raw_schedule_sort_key b.ZzSeSeqnr) = true

instance : DecidableRel schedLe := fun _ _ => Bool.decEq _ _

instance : IsTotal RawSchedule schedLe := ⟨by
  intro a b
  simp only [schedLe, sortKeyLeB, Bool.or_eq_true, Bool.and_eq_true, decide_eq_true_eq]
  omega⟩

instance : IsTrans RawSchedule schedLe := ⟨by
  intro a b c
  simp only [schedLe, sortKeyLeB, Bool.or_eq_true, Bool.and_eq_true, decide_eq_true_eq]
  omega⟩

/-- Python `re.match(r"03940[89]\d\d", course_number)`: is this a sport course? -/
def isSportCourse (course_number : String) : Bool :=
  match course_number.data with
  | '0' :: '3' :: '9' :: '4' :: '0' :: x :: d1 :: d2 :: _ =>
    (x = '8' || x = '9') && isPyDigit d1 && isPyDigit d2
  | _ => false

/-- Python `re.match(r"ספורט חינוך גופני\s*-", category)`. -/
def sportCategoryNameMatch (c : String) : Bool :=
  if "ספורט חינוך גופני".data.isPrefixOf c.data then
    match (c.data.drop "ספורט חינוך גופני".data.length).dropWhile isPyWs with
    | '-' :: _ => true
    | _ => false
  else false

/-- Python `re.sub(r"^SE\d+\s*", "", name)`. -/
def stripSEseq (name : String) : String :=
  match name.data with
  | 'S' :: 'E' :: rest =>
    let ds := rest.takeWhile isPyDigit
    if ds = [] then name else String.mk ((rest.drop ds.length).dropWhile isPyWs)
  | _ => name

/-- The category relabeling of `get_course_schedule` (sport-course special
case; the `elif` branch of the source leaves the category unchanged). -/
def categoryOf (course_number : String) (rawName : String) (item : EItem) : String :=
  let category := item.CategoryText
  if isSportCourse course_number then
    if category = "ספורט" || category = "נבחרת ספורט" then
      let category := item.Name
      if sportCategoryNameMatch category || category = "ספורט נבחרות ספורט" then
        if rawName ≠ "" then stripSEseq rawName else category
      else category
    else category
  else category

/-- Python `re.match(r"(\d\d\d)-(\d\d\d\d)", room_text)`: on success return the
parsed second group (`int(room_match.group(2))`). -/
def roomMatchGroup2 (l : List Char) : Option Nat :=
  match l with
  | a :: b :: c :: h :: d :: e :: f :: g :: _ =>
    if isPyDigit a && isPyDigit b && isPyDigit c && h = '-' && isPyDigit d &&
        isPyDigit e && isPyDigit f && isPyDigit g
    then some (natOfDigits [d, e, f, g]) else none
  | _ => none

/-- The `(weekday, begin, end) → (building, room)` mapping produced by
`get_room_info`, modelled as an association list in insertion order. -/
def RoomInfoDict := List ((Nat × String × String) × (String × Nat))

/-- The room-extraction branch of the meeting-row loop in
`get_course_schedule` (lines 342-365): returns the provisional
`(building, room)` and, when the `EventScheduleSet` fallback is consulted,
the `building_room_dict`.  The final `else` of the source is unreachable
(every string is either truthy-and-not-the-sentinel or falsy-or-the-sentinel)
but is mirrored here for fidelity. -/
def roomDecision (buildingNameOf : String → String) (roomInfoOf : String → RoomInfoDict)
    (item : EItem) : String × Nat × Option RoomInfoDict :=
  let room_text := item.RoomText
  if room_text ≠ "" ∧ room_text ≠ "ראה פרטים" then
    match roomMatchGroup2 room_text.data with
    | some r => (buildingNameOf item.RoomId, r, none)
    | none => ("", 0, none)
  else if room_text = "ראה פרטים" ∨ room_text = "" then
    if item.Otjid ≠ "" then ("", 0, some (roomInfoOf item.Otjid)) else ("", 0, none)
  else
    match roomInfoOf ((item.Otjid).replace "SM" "") with
    | (_, br) :: _ => (br.1, br.2, none)
    | [] => ("", 0, none)

/-- Python `str.rstrip("\n")`. -/
def dropTrailingNewlines (l : List Char) : List Char :=
  (l.reverse.dropWhile (· = '\n')).reverse

/-- The staff string built from the `Persons` results (titles kept unless
blank or a placeholder dash; trailing newline stripped). -/
def staffOf (persons : List Person) : String :=
  let s := persons.foldl (fun acc person =>
    let title := pyStrip person.Title
    let acc := if title ≠ "" ∧ title ≠ "-" then acc ++ title ++ " " else acc
    acc ++ person.FirstName ++ " " ++ person.LastName ++ "\n") ""
  String.mk (dropTrailingNewlines s.data)

/-- Python `re.match(r"\d\d\.\d\d\.: \d\d:\d\d-\d\d:\d\d", schedule_text)`. -/
def matchSpecificDate1 (l : List Char) : Bool :=
  match matchDDdotDDdot l with
  | some (':' :: ' ' :: r) =>
    match matchHHMM r with
    | some (_, '-' :: r2) => (matchHHMM r2).isSome
    | _ => false
  | _ => false

/-- One repetition unit `\d\d\.\d\d\., ` (always exactly 8 characters). -/
def matchDateCommaUnit (l : List Char) : Option (List Char) :=
  match matchDDdotDDdot l with
  | some (',' :: ' ' :: r) => some r
  | _ => none

/-- Pattern `בהתאמה \d\d:\d\d-\d\d:\d\d` at the current position. -/
def matchBehatama (l : List Char) : Bool :=
  if "בהתאמה ".data.isPrefixOf l then
    match matchHHMM (l.drop "בהתאמה ".data.length) with
    | some (_, '-' :: r) => (matchHHMM r).isSome
    | _ => false
  else false

/-- Python `re.match(r"(\d\d\.\d\d\., )+בהתאמה \d\d:\d\d-\d\d:\d\d", schedule_text)`:
the repetition unit starts with a digit while the continuation starts with a
letter, so the greedy repetition is deterministic. -/
def matchSpecificDate2 : List Char → Bool
  | [] => false
  | c :: rest =>
    if (matchDateCommaUnit (c :: rest)).isSome then
      matchBehatama (rest.drop 7) || matchSpecificDate2 (rest.drop 7)
    else false
termination_by l => l.length
decreasing_by simp only [List.length_cons, List.length_drop]; omega

/-- Source `day_mapping` of the source (0 = Sunday). -/
def dayMapping : List (String × Nat) :=
  [("ראשון", 0), ("שני", 1), ("שלישי", 2), ("רביעי", 3), ("חמישי", 4), ("שישי", 5)]

/-- The per-meeting-row entry construction of `get_course_schedule`
(lines 376-421): skip empty/irregular and specific-date schedule texts, parse
the text, and emit one entry per (day, begin, end) triple, overriding room
information from `building_room_dict` when available. -/
def buildEntries (group_id : Nat) (category staff building : String) (room : Nat)
    (brDict : Option RoomInfoDict) (item : EItem) : List ScheduleEntry :=
  let st := item.ScheduleSummary
  if st = "" ∨ st = "לֹא סָדִיר" then []
  else if matchSpecificDate1 st.data || matchSpecificDate2 st.data then []
  else
    (parse_schedule_text st).map (fun dtt =>
      let day := dtt.1
      let tb := dtt.2.1
      let te := dtt.2.2
      let fbr : String × Nat :=
        match brDict with
        | some d =>
          if d.isEmpty then (building, room)
          else
            match dayMapping.lookup day with
            | some wd =>
              match d.lookup (wd, tb, te) with
              | some br => br
              | none => (building, room)
            | none => (building, room)
        | none => (building, room)
      { group := group_id, category := category, day := day,
        hour := tb ++ " - " ++ te, building := fbr.1, room := fbr.2, staff := staff,
        seq := if item.Otjid ≠ "" ∧ item.Otjid.data.all isPyDigit
               then natOfDigits item.Otjid.data else group_id })

/-- Processing of one meeting row of one raw schedule group. -/
def processItem (buildingNameOf : String → String) (roomInfoOf : String → RoomInfoDict)
    (course_number rawName : String) (group_id : Nat) (item : EItem) : List ScheduleEntry :=
  let category := categoryOf course_number rawName item
  let (building, room, brDict) := roomDecision buildingNameOf roomInfoOf item
  buildEntries group_id category (staffOf item.Persons) building room brDict item

/-- Source `get_course_schedule` (`technion_fetcher_full.py`, lines 298-423).  The
upstream sub-query is abstracted as `resp`: `Except.error` models a raised
`RuntimeError` (bad status, malformed envelope), `Except.ok` the decoded
`d/results` list.  The auxiliary lookups `get_building_name` and
`get_room_info` are abstracted as the function parameters. -/
def get_course_schedule (buildingNameOf : String → String)
    (roomInfoOf : String → RoomInfoDict) (course_number : String)
    (resp : Except Unit (List RawSchedule)) : List ScheduleEntry :=
  match resp with
  | .error _ => []
  | .ok schedule_results =>
    if schedule_results.isEmpty then []
    else
      (schedule_results.insertionSort schedLe).flatMap (fun raw =>
        raw.EObjectSet.flatMap
          (processItem buildingNameOf roomInfoOf course_number raw.Name raw.ZzSeSeqnr))

/-- Character sanitization of `_get_cache_file`:
`re.sub(r"[<>:\"/\\|?*]", "_", query)`. -/
def sanitizeChar (c : Char) : Char :=
  if c = '<' || c = '>' || c = ':' || c = '"' || c = '/' || c = '\\' || c = '|' ||
      c = '?' || c = '*'
  then '_' else c

/-- The cache file name of `_get_cache_file` (`technion_fetcher_full.py`,
lines 174-178): sanitized query truncated to 64 characters, underscore, the
first 8 characters of the query's content hash, `.json`.  The hash function
(SHA-256 hex digest in the source) is an opaque parameter of the model. -/
def cacheFileName (hash : String → String) (query : String) : String :=
  String.mk ((query.data.map sanitizeChar).take 64) ++ "_" ++
    String.mk ((hash query).data.take 8) ++ ".json"

/-- State threaded through `_send_request`: the set of cache files already on
disk (file name paired with the stored JSON value, newest first) and the
number of upstream HTTP requests performed so far. -/
structure CacheState (J : Type) where
  store : List (String × J)
  upstreamCalls : Nat
deriving DecidableEq

/-- Source `_send_request` (`technion_fetcher_full.py`, lines 115-172), with the
transport layer abstracted per the spec's scope: `upstream n` is the decoded
JSON result of the `n`-th upstream request (the `QuerySource` collaborator,
taken to succeed; transport failures raise before any caching happens and so
never touch the state).  With a cache directory configured, a hit returns the
deserialized stored value without an upstream call; a miss performs the
upstream call and persists the result.  With no cache directory, every call
is a live fetch and nothing is persisted. -/
def send_request {J : Type} (hash : String → String) (cacheDirConfigured : Bool)
    (upstream : Nat → J) (st : CacheState J) (query : String) : J × CacheState J :=
  if cacheDirConfigured then
    match st.store.lookup (cacheFileName hash query) with
    | some v => (v, st)
    | none =>
      let r := upstream st.upstreamCalls
      (r, ⟨(cacheFileName hash query, r) :: st.store, st.upstreamCalls + 1⟩)
  else
    let r := upstream st.upstreamCalls
    (r, ⟨st.store, st.upstreamCalls + 1⟩)

/-- The static ordered building-name rewrite table of `get_building_name`
(dict literal, iterated in insertion order). -/
def building_mapping : List (String × String) :=
  [("בנין אולמן", "אולמן"),
   ("בנין בורוביץ הנדסה אזרחית", "בורוביץ הנדסה אזרחית"),
   ("בנין דן קהאן", "דן קהאן"),
   ("בנין הנ' אוירונאוטית", "הנ' אוירונאוטית"),
   ("בנין זיסאפל", "זיסאפל"),
   ("בנין להנדסת חמרים", "הנדסת חמרים"),
   ("בנין ליידי דייוס", "ליידי דייוס"),
   ("בנין למדעי המחשב", "מדעי המחשב"),
   ("בנין ע'ש אמדו", "אמדו"),
   ("בנין ע'ש טאוב", "טאוב"),
   ("בנין ע'ש סגו", "סגו"),
   ("בנין פישבך", "פישבך"),
   ("בנין פקולטה לרפואה", "פקולטה לרפואה"),
   ("בניין ננו-אלקטרוניקה", "ננו-אלקטרוניקה"),
   ("בניין ספורט", "ספורט")]

/-- The rewrite loop of `get_building_name`: the first table entry whose key
is a prefix of the name wins, its value replacing the matched prefix. -/
def applyBuildingMapping : List (String × String) → String → String
  | [], b => b
  | (old, rep) :: rest, b =>
    if old.isPrefixOf b then rep ++ String.mk (b.data.drop old.data.length)
    else applyBuildingMapping rest b

/-- Python `re.sub(r"\s+", " ", ...)`: collapse each maximal whitespace run to one
space. -/
def collapseRuns : List Char → List Char
  | [] => []
  | [c] => if isPyWs c then [' '] else [c]
  | c :: d :: rest =>
    if isPyWs c && isPyWs d then collapseRuns (d :: rest)
    else (if isPyWs c then ' ' else c) :: collapseRuns (d :: rest)

/-- Python `re.sub(r"\s+", " ", building.strip())`. -/
def normalizeBuilding (b : String) : String :=
  String.mk (collapseRuns (pyStripL b.data))

/-- Source `get_building_name` (`technion_fetcher_full.py`, lines 230-269).  The
upstream `GObjectSet` lookup is abstracted as `lookupBuilding`: `none` models
any exception on the way to `raw_data["d"]["Building"]` (all swallowed by the
bare `except`), `some b` the retrieved building string.  Memoization
(`@cache`) affects only the number of upstream calls, not the value. -/
def get_building_name (lookupBuilding : Option String) (room_id : String) : String :=
  if room_id = "" then ""
  else
    match lookupBuilding with
    | none => ""
    | some building =>
      if building = "" then ""
      else applyBuildingMapping building_mapping (normalizeBuilding building)

/-- One `SmPrereq` result row. -/
structure PrereqItem where
  Bracket : String
  ModuleId : String
  Operator : String
deriving DecidableEq

/-- The body of the accumulation loop of `_extract_prerequisites`: bracket
verbatim, module id when it does not strip to nothing, operator rendering. -/
def renderPrereqItem (it : PrereqItem) : String :=
  it.Bracket ++
    (if it.ModuleId.data.dropWhile (· = '0') ≠ [] then it.ModuleId else "") ++
    (if it.Operator = "AND" then " ו-"
     else if it.Operator = "OR" then " או " else "")

/-- Worker for `re.sub(r"\((\d+)\)", r"\1", s)`: remove parentheses around
every bare digit run (global substitution; the replacement text cannot start
a new match, so continuing after the replaced text is faithful).  The fuel
falls by one per step while the unscanned text falls by at least one
character, so `length l` fuel always suffices; structural recursion on the
fuel keeps the definition kernel-computable. -/
def subNumParensF : Nat → List Char → List Char
  | 0, l => l
  | _ + 1, [] => []
  | fuel + 1, c :: rest =>
    if c = '(' then
      let ds := rest.takeWhile isPyDigit
      if ds ≠ [] ∧ (rest.drop ds.length).head? = some ')' then
        ds ++ subNumParensF fuel (rest.drop (ds.length + 1))
      else c :: subNumParensF fuel rest
    else c :: subNumParensF fuel rest

/-- Python `re.sub(r"\((\d+)\)", r"\1", s)`. -/
def subNumParens (l : List Char) : List Char := subNumParensF l.length l

/-- Python `re.sub(r"^\(([^()]+)\)$", r"\1", s)`: remove one outermost parenthesis
pair enclosing the entire (paren-free, nonempty) remainder. -/
def subOuterParens (l : List Char) : List Char :=
  match l with
  | '(' :: rest =>
    if rest.getLast? = some ')' ∧ rest.dropLast ≠ [] ∧
        rest.dropLast.all (fun c => !(c = '(' || c = ')')) then
      rest.dropLast
    else l
  | _ => l

/-- Source `_extract_prerequisites` (`technion_fetcher_full.py`, lines 425-440),
translated with the same loop shape as the source. -/
def extract_prerequisites (items : List PrereqItem) : String :=
  let raw := items.foldl (fun pre it =>
    let pre := pre ++ it.Bracket
    let pre := if it.ModuleId.data.dropWhile (· = '0') ≠ [] then pre ++ it.ModuleId else pre
    if it.Operator = "AND" then pre ++ " ו-"
    else if it.Operator = "OR" then pre ++ " או " else pre) ""
  pyStrip (String.mk (subOuterParens (subNumParens raw.data)))

/-- The parenthesis subsequence of a string (for stating how the cleanup
passes treat the bracket fields). -/
def parenSeq (s : String) : List Char :=
  s.data.filter (fun c => c = '(' || c = ')')

/-- The concatenation of the raw `Bracket` fields of a prerequisite list. -/
def concatBrackets (items : List PrereqItem) : String :=
  String.join (items.map (·.Bracket))

/-- Modelled from the spec (section 4.4 and the claim's words): the rendering
of `_extract_prerequisites` in which the source bracket fields pass through
untouched — operators rendered, module ids emitted, no parenthesis cleanup
beyond the final strip.  Used to compare the spec's claim with the code. -/
def specVerbatimPrereq (items : List PrereqItem) : String :=
  pyStrip (String.join (items.map renderPrereqItem))

/-- One `Exams` result row of the combined course query.  `CategoryCode` and
`ExamDate` are retrieved with `.get(...)` and may be absent; the time fields
default to the empty string. -/
structure ExamRec where
  CategoryCode : Option String
  ExamDate : Option String
  ExamBegTime : String
  ExamEndTime : String
deriving DecidableEq

/-- Source `exam_mapping` of `get_course_data`. -/
def exam_mapping : List (String × String) :=
  [("FI", "מועד א"), ("FB", "מועד ב"), ("MI", "בוחן מועד א"), ("M2", "בוחן מועד ב")]

/-- Python `re.match(r"PT(\d\d)H(\d\d)M\d\dS", t)`: on success return `"HH:MM"`. -/
def parsePTTime (t : String) : Option String :=
  match t.data with
  | 'P' :: 'T' :: h1 :: h2 :: 'H' :: m1 :: m2 :: 'M' :: s1 :: s2 :: 'S' :: _ =>
    if isPyDigit h1 && isPyDigit h2 && isPyDigit m1 && isPyDigit m2 &&
        isPyDigit s1 && isPyDigit s2
    then some (String.mk [h1, h2, ':', m1, m2]) else none
  | _ => none

/-- The `time_str` computation of the exam loop in `get_course_data`
(lines 562-575): the suffix ` HH:MM - HH:MM` appended to the exam date, empty
unless both raw times are present, both parse, and they are not both
`"00:00"`. -/
def examTimeSuffix (rec : ExamRec) : String :=
  if rec.ExamBegTime ≠ "" ∧ rec.ExamEndTime ≠ "" then
    match parsePTTime rec.ExamBegTime, parsePTTime rec.ExamEndTime with
    | some tb, some te =>
      if tb ≠ "00:00" ∨ te ≠ "00:00" then " " ++ tb ++ " - " ++ te else ""
    | _, _ => ""
  else ""

/-- Python `re.match(r"/Date\((\d+)\)/", date_str)` of `_parse_sap_date`: the
extracted millisecond timestamp, `none` when the format is invalid (in which
case the source raises `ValueError`). -/
def parseSapDateMillis (s : String) : Option Nat :=
  match s.data with
  | '/' :: 'D' :: 'a' :: 't' :: 'e' :: '(' :: rest =>
    let ds := rest.takeWhile isPyDigit
    if ds ≠ [] ∧ (rest.drop ds.length).take 2 = [')', '/'] then some (natOfDigits ds)
    else none
  | _ => none

/-- Python-dict insertion: overwrite in place when the key exists, append
otherwise. -/
def dictInsert {α : Type} (m : List (String × α)) (k : String) (v : α) : List (String × α) :=
  if (m.lookup k).isSome then m.map (fun kv => if kv.1 = k then (k, v) else kv)
  else m ++ [(k, v)]

/-- The exam-processing loop of `get_course_data` (lines 543-577).  The
calendar rendering of `_parse_sap_date(...).strftime("%d-%m-%Y")` is
abstracted as `fmtDate` applied to the extracted millisecond timestamp;
`Except.error` models the `ValueError` raised on a malformed date string. -/
def processExams (fmtDate : Nat → String) :
    List ExamRec → List (String × String) → Except Unit (List (String × String))
  | [], exams => .ok exams
  | rec :: rest, exams =>
    match rec.CategoryCode with
    | none => processExams fmtDate rest exams
    | some category =>
      match exam_mapping.lookup category with
      | none => processExams fmtDate rest exams
      | some label =>
        match rec.ExamDate with
        | none => processExams fmtDate rest exams
        | some date_raw =>
          if date_raw = "" then processExams fmtDate rest exams
          else
            match parseSapDateMillis date_raw with
            | none => .error ()
            | some millis =>
              processExams fmtDate rest
                (dictInsert exams label (fmtDate millis ++ examTimeSuffix rec))

/-- The four exam labels that can appear as keys. -/
def examLabels : List String := exam_mapping.map (·.2)

/-- Source `CourseInfo` (the dataclass of `technion_fetcher_full.py`), with the
`__post_init__` defaults for `exams` and `schedule`. -/
structure CourseInfo where
  course_number : String
  name : String
  syllabus : String
  faculty : String
  academic_level : String
  points : String
  responsible : String
  prerequisites : String := ""
  adjoining_courses : String := ""
  no_additional_credit : String := ""
  notes : String := ""
  exams : List (String × String) := []
  schedule : List ScheduleEntry := []
deriving DecidableEq

/-- The per-course loop of `fetch_semester_courses`
(`technion_fetcher_full.py`, lines 693-713): build each course, collect the
successes in input order, collect the identifiers of the failures (any
exception is caught and recorded; the loop always continues).  The course
builder `get_course_data` is abstracted as `build`. -/
def fetch_semester_courses (build : String → Except Unit CourseInfo) :
    List String → List CourseInfo × List String
  | [] => ([], [])
  | n :: rest =>
    let (cs, fs) := fetch_semester_courses build rest
    match build n with
    | .ok c => (c :: cs, fs)
    | .error _ => (cs, n :: fs)

/-- The `general` sub-document written by
`save_to_firestore_university_structure` (`smart_fetcher_fixed.py`,
lines 210-242): fixed keys, then the optional fields when nonempty, then the
exam entries with nonempty dates.  Every key is a function of the fresh
record alone. -/
def generalOf (c : CourseInfo) : List (String × String) :=
  [("מספר מקצוע", c.course_number), ("שם מקצוע", c.name), ("סילבוס", c.syllabus),
   ("פקולטה", c.faculty), ("מסגרת לימודים", c.academic_level), ("נקודות", c.points),
   ("אחראים", c.responsible), ("הערות", c.notes)] ++
  (if c.prerequisites ≠ "" then [("מקצועות קדם", c.prerequisites)] else []) ++
  (if c.adjoining_courses ≠ "" then [("מקצועות צמודים", c.adjoining_courses)] else []) ++
  (if c.no_additional_credit ≠ "" then [("מקצועות ללא זיכוי נוסף", c.no_additional_credit)]
   else []) ++
  c.exams.filter (fun kv => kv.2 ≠ "")

/-- One persisted course document (server-timestamp metadata omitted; the
constant metadata fields are carried so that the document is a function of
the call's parameters exactly as in the source). -/
structure SavedCourseDoc where
  general : List (String × String)
  schedule : List ScheduleEntry
  university : String
  year : Nat
  semester : Nat
deriving DecidableEq

/-- The schedule reconciliation of `save_to_firestore_university_structure`
(`smart_fetcher_fixed.py`, lines 199-208): the two list-shape normalizations
of the source are identities in this typed model; when the fresh schedule is
empty and the snapshot has an entry for the course number, the snapshot's
schedule is substituted. -/
def reconcileScheduleOf (c : CourseInfo)
    (existing_schedules : List (String × List ScheduleEntry)) : List ScheduleEntry :=
  if c.schedule.isEmpty then
    match existing_schedules.lookup c.course_number with
    | some s => s
    | none => c.schedule
  else c.schedule

/-- The loading of the prior snapshot file (lines 169-183): each item
contributes its course number (when present) mapped to its schedule, later
items overwriting earlier ones. -/
def loadExistingSchedules (items : List (Option String × List ScheduleEntry)) :
    List (String × List ScheduleEntry) :=
  items.foldl (fun m item =>
    match item.1 with
    | some n => if n ≠ "" then dictInsert m n item.2 else m
    | none => m) []

/-- The per-course document written by
`save_to_firestore_university_structure`. -/
def save_course_doc (university : String) (year semester : Nat)
    (existing_schedules : List (String × List ScheduleEntry)) (c : CourseInfo) :
    SavedCourseDoc :=
  { general := generalOf c, schedule := reconcileScheduleOf c existing_schedules,
    university := university, year := year, semester := semester }

/-- The sequence of documents written by
`save_to_firestore_university_structure` (one per fresh course, in input
order; batching is a storage mechanic and does not change the sequence). -/
def save_to_firestore_university_structure (university : String) (year semester : Nat)
    (existing_schedules : List (String × List ScheduleEntry))
    (courses : List CourseInfo) : List SavedCourseDoc :=
  courses.map (save_course_doc university year semester existing_schedules)


/-- A concrete course builder for exercising the orchestrator: course "b"
fails, every other course number builds a default record. -/
def sampleBuild : String → Except Unit CourseInfo := fun n =>
  if n = "b" then Except.error ()
  else Except.ok ⟨n, "", "", "", "", "", "", "", "", "", "", [], []⟩

theorem schedLe_refl_of_eq_key {a b : RawSchedule} (h : a.ZzSeSeqnr = b.ZzSeSeqnr) :
    schedLe a b := by
  simp [schedLe, sortKeyLeB, h]

theorem filter_orderedInsert_pos (p : RawSchedule → Bool) (a : RawSchedule)
    (l : List RawSchedule) (ha : p a = true) (h : ∀ b, p b = true → schedLe a b) :
    (List.orderedInsert schedLe a l).filter p = a :: l.filter p := by
  induction l with
  | nil => simp [List.orderedInsert, ha]
  | cons b l ih =>
    by_cases hab : schedLe a b
    · simp [List.orderedInsert, hab, ha]
    · have hb : p b = false := by
        cases hpb : p b
        · rfl
        · exact absurd (h b hpb) hab
      simp [List.orderedInsert, hab, hb, ih]

theorem filter_orderedInsert_neg (p : RawSchedule → Bool) (a : RawSchedule)
    (l : List RawSchedule) (ha : p a = false) :
    (List.orderedInsert schedLe a l).filter p = l.filter p := by
  induction l with
  | nil => simp [List.orderedInsert, ha]
  | cons b l ih =>
    by_cases hab : schedLe a b
    · simp [List.orderedInsert, hab, ha]
    · simp [List.orderedInsert, hab, List.filter_cons, ih]

theorem filter_insertionSort_stable (p : RawSchedule → Bool)
    (h : ∀ a b, p a = true → p b = true → schedLe a b) :
    ∀ rs : List RawSchedule,
      (rs.insertionSort schedLe).filter p = rs.filter p := by
  intro rs
  induction rs with
  | nil => rfl
  | cons a rs ih =>
    cases hpa : p a
    · rw [List.insertionSort, filter_orderedInsert_neg p a _ hpa, ih,
        List.filter_cons_of_neg]
      simp [hpa]
    · rw [List.insertionSort, filter_orderedInsert_pos p a _ hpa (fun b => h a b hpa), ih,
        List.filter_cons_of_pos]
      simp [hpa]

theorem schedLe_zero_last {a b : RawSchedule} (hab : schedLe a b) :
    (a.ZzSeSeqnr = 0 → b.ZzSeSeqnr = 0) ∧
      (a.ZzSeSeqnr ≠ 0 → b.ZzSeSeqnr ≠ 0 → a.ZzSeSeqnr ≤ b.ZzSeSeqnr) := by
  simp only [schedLe, sortKeyLeB, raw_schedule_sort_key, Bool.or_eq_true,
    Bool.and_eq_true, decide_eq_true_eq] at hab
  constructor
  · intro ha
    by_contra hb
    simp [ha, hb] at hab
  · intro ha hb
    simp [ha, hb] at hab
    omega

/-- C4: sorting raw schedule groups by `raw_schedule_sort_key` orders non-zero
group ids ascending with group id 0 placed last, stably among equal keys; in
particular group ids `[3, 0, 1, 0]` sort to `[1, 3, 0, 0]` (the two zero
groups keep their relative order, witnessed by their distinct names). -/
theorem raw_schedule_sort_spec :
    ((List.insertionSort schedLe
        [⟨3, "x", []⟩, ⟨0, "y", []⟩, ⟨1, "z", []⟩, ⟨0, "w", []⟩] : List RawSchedule) =
      [⟨1, "z", []⟩, ⟨3, "x", []⟩, ⟨0, "y", []⟩, ⟨0, "w", []⟩]) ∧
    (∀ rs : List RawSchedule,
      (rs.insertionSort schedLe).Pairwise (fun a b =>
        (a.ZzSeSeqnr = 0 → b.ZzSeSeqnr = 0) ∧
        (a.ZzSeSeqnr ≠ 0 → b.ZzSeSeqnr ≠ 0 → a.ZzSeSeqnr ≤ b.ZzSeSeqnr))) ∧
    (∀ (rs : List RawSchedule) (g : Nat),
      (rs.insertionSort schedLe).filter (fun r => decide (r.ZzSeSeqnr = g)) =
        rs.filter (fun r => decide (r.ZzSeSeqnr = g))) := by
  refine ⟨by decide, ?_, ?_⟩
  · intro rs
    exact (List.sorted_insertionSort schedLe rs).imp (fun hab => schedLe_zero_last hab)
  · intro rs g
    refine filter_insertionSort_stable _ (fun a b ha hb => ?_) rs
    simp only [decide_eq_true_eq] at ha hb
    exact schedLe_refl_of_eq_key (ha.trans hb.symm)

/-- C3: the points normalization applied in `get_course_data` strips trailing
zeros beyond one significant decimal: `"3.00"` yields `"3"`, `"3.50"` yields
`"3.5"`, and `"0.00"` yields `"0"`. -/
theorem normalize_points_examples :
    normalize_points "3.00" = "3" ∧ normalize_points "3.50" = "3.5" ∧
      normalize_points "0.00" = "0" := by decide

/-- C10: when the schedule sub-query raises a `RuntimeError` or yields an
empty result set, `get_course_schedule` returns the empty list instead of
propagating the error (so the enclosing course record is still built, with
`schedule = []`, which is exactly the shape the persist-time snapshot
substitution looks for). -/
theorem get_course_schedule_soft_failure :
    ∀ (bno : String → String) (ri : String → RoomInfoDict) (cn : String) (e : Unit),
      get_course_schedule bno ri cn (Except.error e) = [] ∧
      get_course_schedule bno ri cn (Except.ok []) = [] := by
  intro bno ri cn e
  exact ⟨rfl, rfl⟩


theorem except_isOk_ok {ε α : Type} (a : α) : (Except.ok a : Except ε α).isOk = true := rfl

theorem except_isOk_error {ε α : Type} (e : ε) :
    (Except.error e : Except ε α).isOk = false := rfl

theorem except_toOption_ok {ε α : Type} (a : α) :
    (Except.ok a : Except ε α).toOption = some a := rfl

theorem except_toOption_error {ε α : Type} (e : ε) :
    (Except.error e : Except ε α).toOption = none := rfl

theorem fetch_semester_courses_eq (build : String → Except Unit CourseInfo) :
    ∀ ids : List String,
      fetch_semester_courses build ids =
        (ids.filterMap (fun n => (build n).toOption),
         ids.filter (fun n => !(build n).isOk)) := by
  intro ids
  induction ids with
  | nil => rfl
  | cons n rest ih =>
    cases h : build n <;>
      simp [fetch_semester_courses, ih, h, List.filterMap_cons, List.filter_cons,
        except_isOk_ok, except_isOk_error, except_toOption_ok, except_toOption_error]

theorem all_ok_filter_nil (build : String → Except Unit CourseInfo) (l : List String)
    (h : ∀ n ∈ l, (build n).isOk = true) :
    l.filter (fun n => !(build n).isOk) = [] := by
  induction l with
  | nil => rfl
  | cons n rest ih =>
    rw [List.filter_cons_of_neg, ih (fun m hm => h m (List.mem_cons_of_mem _ hm))]
    simp [h n (List.mem_cons_self _ _)]

theorem all_ok_filterMap_length (build : String → Except Unit CourseInfo) (l : List String)
    (h : ∀ n ∈ l, (build n).isOk = true) :
    (l.filterMap (fun n => (build n).toOption)).length = l.length := by
  induction l with
  | nil => rfl
  | cons n rest ih =>
    have hn := h n (List.mem_cons_self _ _)
    cases hb : build n
    · rw [hb, except_isOk_error] at hn
      exact absurd hn (by simp)
    · rw [List.filterMap_cons, hb, except_toOption_ok]
      simp [ih (fun m hm => h m (List.mem_cons_of_mem _ hm))]

/-- C1: if building the `k`-th of `N` course identifiers raises and the other
`N-1` succeed, `fetch_semester_courses` records exactly that one failure and
returns exactly the `N-1` successfully built records, in the relative order
of the input identifiers with position `k` removed (so a failure at `k` never
prevents any later course from being attempted and collected). -/
theorem fetch_semester_courses_failure_isolation
    (build : String → Except Unit CourseInfo) (ids : List String) (k : Nat)
    (hk : k < ids.length)
    (hfail : (build (ids.get ⟨k, hk⟩)).isOk = false)
    (hok : ∀ i : Fin ids.length, (i : Nat) ≠ k → (build (ids.get i)).isOk = true) :
    (fetch_semester_courses build ids).2 = [ids.get ⟨k, hk⟩] ∧
    (fetch_semester_courses build ids).1.length = ids.length - 1 ∧
    (fetch_semester_courses build ids).1 =
      (ids.eraseIdx k).filterMap (fun n => (build n).toOption) := by
  induction ids generalizing k with
  | nil => exact absurd hk (Nat.not_lt_zero k)
  | cons n rest ih =>
    cases k with
    | zero =>
      have hfn : (build n).isOk = false := hfail
      have hrest : ∀ m ∈ rest, (build m).isOk = true := by
        intro m hm
        obtain ⟨⟨j, hj⟩, hjm⟩ := List.mem_iff_get.mp hm
        exact hjm ▸ hok ⟨j + 1, by simpa using hj⟩ (by simp)
      have hbn : ∃ e, build n = Except.error e := by
        cases hb : build n
        · exact ⟨_, rfl⟩
        · rw [hb, except_isOk_ok] at hfn
          exact absurd hfn (by simp)
      obtain ⟨e, hbn⟩ := hbn
      refine ⟨?_, ?_, ?_⟩
      · rw [fetch_semester_courses_eq]
        simp [List.filter_cons, hbn, except_isOk_error, all_ok_filter_nil build rest hrest]
      · rw [fetch_semester_courses_eq]
        simp only [List.filterMap_cons, hbn, except_toOption_error, List.length_cons]
        rw [all_ok_filterMap_length build rest hrest]
        omega
      · rw [fetch_semester_courses_eq]
        simp only [List.filterMap_cons, hbn, except_toOption_error, List.eraseIdx]
    | succ j =>
      have hkj : j < rest.length := by simpa using hk
      have hn : (build n).isOk = true := hok ⟨0, by simp⟩ (by simp)
      have hbc : ∃ c, build n = Except.ok c := by
        cases hb : build n
        · rw [hb, except_isOk_error] at hn
          exact absurd hn (by simp)
        · exact ⟨_, rfl⟩
      obtain ⟨c, hbc⟩ := hbc
      have hfail' : (build (rest.get ⟨j, hkj⟩)).isOk = false := hfail
      have hok' : ∀ i : Fin rest.length, (i : Nat) ≠ j → (build (rest.get i)).isOk = true := by
        intro i hi
        exact hok ⟨(i : Nat) + 1, by simp [i.isLt]⟩ (by simpa using hi)
      obtain ⟨h1, h2, h3⟩ := ih j hkj hfail' hok'
      refine ⟨?_, ?_, ?_⟩
      · show (fetch_semester_courses build (n :: rest)).2 = [rest.get ⟨j, hkj⟩]
        simp only [fetch_semester_courses, hbc]
        exact h1
      · simp only [fetch_semester_courses, hbc, List.length_cons]
        rw [h2]
        omega
      · simp [fetch_semester_courses, hbc, List.eraseIdx, List.filterMap_cons,
          except_toOption_ok, h3]

/-- Witness for C1 at a concrete input: three identifiers of which the second
fails to build. -/
theorem fetch_semester_courses_failure_isolation_witness :
    (fetch_semester_courses sampleBuild ["a", "b", "c"]).2 = ["b"] ∧
    (fetch_semester_courses sampleBuild ["a", "b", "c"]).1.length = 2 ∧
    (fetch_semester_courses sampleBuild ["a", "b", "c"]).1 =
      ((["a", "b", "c"] : List String).eraseIdx 1).filterMap
        (fun n => (sampleBuild n).toOption) :=
  fetch_semester_courses_failure_isolation sampleBuild ["a", "b", "c"] 1 (by decide)
    (by decide) (by decide)

theorem generalOf_lookup_course_number (c : CourseInfo) :
    (generalOf c).lookup "מספר מקצוע" = some c.course_number := by
  simp [generalOf, List.lookup]

/-- C2: at persist time, a fresh record with an empty schedule and a snapshot
entry for its course number is written with the snapshot's schedule; a fresh
record with a non-empty schedule passes through unchanged regardless of the
snapshot; every field other than `schedule` always comes from the fresh
record; and the persisted sequence is exactly one document per fresh record,
so no document (hence no schedule) is fabricated for a course absent from the
fresh fetch, and a course absent from the snapshot keeps its empty fresh
schedule. -/
theorem save_reconciliation_spec :
    ∀ (u : String) (y s : Nat) (existing : List (String × List ScheduleEntry))
      (c : CourseInfo),
      ((save_course_doc u y s existing c).general = generalOf c ∧
       (save_course_doc u y s existing c).university = u ∧
       (save_course_doc u y s existing c).year = y ∧
       (save_course_doc u y s existing c).semester = s) ∧
      (∀ sch, c.schedule = [] → existing.lookup c.course_number = some sch →
        (save_course_doc u y s existing c).schedule = sch) ∧
      (c.schedule ≠ [] → (save_course_doc u y s existing c).schedule = c.schedule) ∧
      (c.schedule = [] → existing.lookup c.course_number = none →
        (save_course_doc u y s existing c).schedule = []) ∧
      (∀ courses : List CourseInfo,
        (save_to_firestore_university_structure u y s existing courses).length =
          courses.length ∧
        (∀ d ∈ save_to_firestore_university_structure u y s existing courses,
          ∃ c' ∈ courses, d = save_course_doc u y s existing c') ∧
        (∀ n : String, (∀ c' ∈ courses, c'.course_number ≠ n) →
          ∀ d ∈ save_to_firestore_university_structure u y s existing courses,
            d.general.lookup "מספר מקצוע" ≠ some n)) := by
  intro u y s existing c
  refine ⟨⟨rfl, rfl, rfl, rfl⟩, ?_, ?_, ?_, ?_⟩
  · intro sch hempty hlook
    simp [save_course_doc, reconcileScheduleOf, hempty, hlook]
  · intro hne
    have : c.schedule.isEmpty = false := by
      cases hs : c.schedule
      · exact absurd hs hne
      · rfl
    simp [save_course_doc, reconcileScheduleOf, this]
  · intro hempty hlook
    simp [save_course_doc, reconcileScheduleOf, hempty, hlook]
  · intro courses
    refine ⟨List.length_map _ _, ?_, ?_⟩
    · intro d hd
      obtain ⟨c', hc', rfl⟩ := List.mem_map.mp hd
      exact ⟨c', hc', rfl⟩
    · intro n hn d hd
      obtain ⟨c', hc', rfl⟩ := List.mem_map.mp hd
      rw [show (save_course_doc u y s existing c').general = generalOf c' from rfl,
        generalOf_lookup_course_number]
      intro hsome
      exact hn c' hc' (Option.some.inj hsome)

/-- C6: with a cache directory configured, two consecutive calls of
`_send_request` with the identical query perform exactly one underlying
upstream request, and the second call returns the value stored by the first;
with no cache directory configured, every call is a live upstream fetch. -/
theorem send_request_cache_spec {J : Type} (hash : String → String)
    (upstream : Nat → J) (st : CacheState J) (q : String)
    (hmiss : st.store.lookup (cacheFileName hash q) = none) :
    ((send_request hash true upstream
        ((send_request hash true upstream st q).2) q).1 =
      (send_request hash true upstream st q).1) ∧
    ((send_request hash true upstream
        ((send_request hash true upstream st q).2) q).2.upstreamCalls =
      st.upstreamCalls + 1) ∧
    ((send_request hash true upstream st q).2.upstreamCalls = st.upstreamCalls + 1) ∧
    (∀ (st' : CacheState J) (q' : String),
      (send_request hash false upstream st' q').1 = upstream st'.upstreamCalls ∧
      (send_request hash false upstream st' q').2.upstreamCalls =
        st'.upstreamCalls + 1) := by
  refine ⟨?_, ?_, ?_, fun st' q' => ⟨rfl, rfl⟩⟩ <;>
    simp [send_request, hmiss, List.lookup]

/-- Witness for C6 at a concrete input: an empty cache, the constant query
`"q"`, and upstream responses numbered by call index. -/
theorem send_request_cache_spec_witness :
    (send_request (fun _ => "h") true (fun n => n)
        ((send_request (fun _ => "h") true (fun n => n)
          (⟨[], 0⟩ : CacheState Nat) "q").2) "q").2.upstreamCalls = 0 + 1 :=
  (send_request_cache_spec (fun _ => "h") (fun n => n) ⟨[], 0⟩ "q" rfl).2.2.1


theorem collapseRuns_head_nonws (d : Char) (rest : List Char) (hd : isPyWs d = false) :
    ∃ t, collapseRuns (d :: rest) = d :: t := by
  cases rest with
  | nil => exact ⟨[], by simp [collapseRuns, hd]⟩
  | cons e r => exact ⟨collapseRuns (e :: r), by simp [collapseRuns, hd]⟩

theorem collapseRuns_chain (l : List Char) :
    (collapseRuns l).Chain' (fun a b => ¬(isPyWs a = true ∧ isPyWs b = true)) := by
  induction l using collapseRuns.induct with
  | case1 => simp [collapseRuns]
  | case2 c hc => simp [collapseRuns, hc]
  | case3 c hc => simp [collapseRuns, hc]
  | case4 c d rest hcd ih =>
    rw [collapseRuns, if_pos hcd]
    exact ih
  | case5 c d rest hcd ih =>
    rw [collapseRuns, if_neg hcd]
    rw [List.chain'_cons']
    refine ⟨?_, ih⟩
    intro y hy
    cases hd : isPyWs d
    · obtain ⟨t, ht⟩ := collapseRuns_head_nonws d rest hd
      rw [ht] at hy
      simp at hy
      subst hy
      simp [hd]
    · have hc : isPyWs c = false := by
        cases hc : isPyWs c
        · rfl
        · exact absurd (by simp [hc, hd]) hcd
      simp [hc]

theorem collapseRuns_ws_eq_space (l : List Char) :
    ∀ c ∈ collapseRuns l, isPyWs c = true → c = ' ' := by
  induction l using collapseRuns.induct with
  | case1 => simp [collapseRuns]
  | case2 c hc => simp [collapseRuns, hc]
  | case3 c hc => simp [collapseRuns, hc]
  | case4 c d rest hcd ih =>
    rw [collapseRuns, if_pos hcd]
    exact ih
  | case5 c d rest hcd ih =>
    rw [collapseRuns, if_neg hcd]
    intro x hx hws
    rcases List.mem_cons.mp hx with hx | hx
    · subst hx
      cases hc : isPyWs c
      · rw [if_neg (by simp [hc])] at hws
        exact absurd hws (by simp [hc])
      · rw [if_pos (by simp [hc])]
    · exact ih x hx hws

/-- C7: `get_building_name` is total (never raises, by construction of the
embedding): it returns the empty string when the room id is empty, when the
upstream lookup fails (any exception is swallowed), or when the lookup yields
an empty building; on success it returns the building name with whitespace
runs collapsed to single spaces (conjuncts on `Chain'` and on whitespace
characters) and the static ordered Hebrew prefix-rewrite table applied, the
first matching prefix winning (conjuncts on `applyBuildingMapping`). -/
theorem get_building_name_spec :
    (∀ lb : Option String, get_building_name lb "" = "") ∧
    (∀ rid : String, get_building_name none rid = "") ∧
    (∀ rid : String, get_building_name (some "") rid = "") ∧
    (∀ rid b : String, rid ≠ "" → b ≠ "" →
      get_building_name (some b) rid =
        applyBuildingMapping building_mapping (normalizeBuilding b)) ∧
    (∀ (l1 l2 : List (String × String)) (old rep b : String),
      (∀ p ∈ l1, p.1.isPrefixOf b = false) → old.isPrefixOf b = true →
      applyBuildingMapping (l1 ++ (old, rep) :: l2) b =
        rep ++ String.mk (b.data.drop old.data.length)) ∧
    (∀ (tbl : List (String × String)) (b : String),
      (∀ p ∈ tbl, p.1.isPrefixOf b = false) → applyBuildingMapping tbl b = b) ∧
    (∀ b : String, (normalizeBuilding b).data.Chain'
      (fun a d => ¬(isPyWs a = true ∧ isPyWs d = true))) ∧
    (∀ (b : String) (c : Char), c ∈ (normalizeBuilding b).data → isPyWs c = true →
      c = ' ') := by
  refine ⟨?_, ?_, ?_, ?_, ?_, ?_, ?_, ?_⟩
  · intro lb
    cases lb <;> rfl
  · intro rid
    by_cases h : rid = "" <;> simp [get_building_name, h]
  · intro rid
    by_cases h : rid = "" <;> simp [get_building_name, h]
  · intro rid b h1 h2
    simp [get_building_name, h1, h2]
  · intro l1 l2 old rep b h1 hold
    induction l1 with
    | nil => simp [applyBuildingMapping, hold]
    | cons p l1 ih =>
      rw [List.cons_append, applyBuildingMapping,
        if_neg (by simp [h1 p (List.mem_cons_self _ _)])]
      exact ih (fun p' hp' => h1 p' (List.mem_cons_of_mem _ hp'))
  · intro tbl b h
    induction tbl with
    | nil => rfl
    | cons p tbl ih =>
      rw [applyBuildingMapping, if_neg (by simp [h p (List.mem_cons_self _ _)])]
      exact ih (fun p' hp' => h p' (List.mem_cons_of_mem _ hp'))
  · intro b
    exact collapseRuns_chain (pyStripL b.data)
  · intro b c hc
    exact collapseRuns_ws_eq_space (pyStripL b.data) c hc

theorem string_foldl_append_shift (l : List String) (s : String) :
    l.foldl (fun r t => r ++ t) s = s ++ l.foldl (fun r t => r ++ t) "" := by
  induction l generalizing s with
  | nil => simp [List.foldl_nil]
  | cons a l ih =>
    rw [List.foldl_cons, List.foldl_cons, ih (s ++ a), ih ("" ++ a)]
    simp [String.append_assoc]

theorem string_join_cons (a : String) (l : List String) :
    String.join (a :: l) = a ++ String.join l := by
  simp only [String.join, List.foldl_cons]
  rw [string_foldl_append_shift l ("" ++ a)]
  simp [String.append_assoc]

theorem prereq_foldl_eq (items : List PrereqItem) (s : String) :
    items.foldl (fun pre it =>
      let pre := pre ++ it.Bracket
      let pre := if it.ModuleId.data.dropWhile (· = '0') ≠ [] then pre ++ it.ModuleId
        else pre
      if it.Operator = "AND" then pre ++ " ו-"
      else if it.Operator = "OR" then pre ++ " או " else pre) s =
    s ++ String.join (items.map renderPrereqItem) := by
  induction items generalizing s with
  | nil => simp [String.join]
  | cons it items ih =>
    rw [List.foldl_cons, ih, List.map_cons, string_join_cons, renderPrereqItem]
    by_cases h1 : it.ModuleId.data.dropWhile (· = '0') ≠ [] <;>
      by_cases h2 : it.Operator = "AND" <;>
      by_cases h3 : it.Operator = "OR" <;>
      simp [h1, h2, h3, String.append_assoc]

/-- C8 counterexample: the two cleanup passes of `_extract_prerequisites`
delete parentheses, so the parenthesization of the source bracket fields is
NOT preserved verbatim: for a single course number wrapped in brackets the
output is the bare number. -/
theorem extract_prerequisites_paren_counterexample :
    parenSeq (extract_prerequisites [⟨"(", "104031", ""⟩, ⟨")", "", ""⟩]) = [] ∧
    parenSeq (concatBrackets [⟨"(", "104031", ""⟩, ⟨")", "", ""⟩]) = ['(', ')'] ∧
    extract_prerequisites [⟨"(", "104031", ""⟩, ⟨")", "", ""⟩] = "104031" ∧
    specVerbatimPrereq [⟨"(", "104031", ""⟩, ⟨")", "", ""⟩] = "(104031)" ∧
    extract_prerequisites [⟨"(", "104031", ""⟩, ⟨")", "", ""⟩] ≠
      specVerbatimPrereq [⟨"(", "104031", ""⟩, ⟨")", "", ""⟩] := by decide

/-- C8 (amended): `_extract_prerequisites` renders "AND" as ` ו-` and "OR" as
` או `, emits each bracket field verbatim followed by the module id (omitted
when it strips to nothing), and then — departing from verbatim preservation —
removes parentheses enclosing a bare digit run, removes a single outermost
parenthesis pair enclosing the whole remaining expression, and strips the
result. -/
theorem extract_prerequisites_cleanup :
    ∀ items : List PrereqItem,
      extract_prerequisites items =
        pyStrip (String.mk (subOuterParens (subNumParens
          (String.join (items.map renderPrereqItem)).data))) := by
  intro items
  unfold extract_prerequisites
  rw [prereq_foldl_eq]
  rfl

theorem matchDayName_mem {l : List Char} {d : String} {r : List Char}
    (h : matchDayName l = some (d, r)) : d ∈ dayAlternatives := by
  unfold matchDayName at h
  cases hf : dayAlternatives.find? (fun d => d.data.isPrefixOf l) with
  | none => rw [hf] at h; exact absurd h (by simp)
  | some d' =>
    rw [hf] at h
    simp only [Option.some.injEq, Prod.mk.injEq] at h
    exact h.1 ▸ List.mem_of_find?_eq_some hf

/-- C5: `_parse_schedule_text` yields exactly the two expected triples on the
two-meeting example, the empty sequence on the irregular-schedule sentinel,
and in general every produced triple comes from a comma-token matching the
day-time pattern (non-matching tokens are silently dropped), with the day of
every produced triple drawn from the six canonical forms (the misspelled
variant is normalized to `ראשון`). -/
theorem parse_schedule_text_spec :
    parse_schedule_text "יום שני 10:30 - 12:30, יום רביעי 10:30 - 12:30" =
      [("שני", "10:30", "12:30"), ("רביעי", "10:30", "12:30")] ∧
    parse_schedule_text "לֹא סָדִיר" = [] ∧
    (∀ (text : String) (e : String × String × String),
      e ∈ parse_schedule_text text →
        ∃ tok, tok ∈ scheduleTokens text ∧ matchDayTime tok = some e) ∧
    (∀ tok day tb te : String,
      matchDayTime tok = some (day, tb, te) →
        day ∈ ["ראשון", "שני", "שלישי", "רביעי", "חמישי", "שישי"]) := by
  refine ⟨by decide, by decide, ?_, ?_⟩
  · intro text e he
    exact List.mem_filterMap.mp he
  · intro tok day tb te h
    simp only [matchDayTime] at h
    repeat' split at h
    any_goals exact Option.noConfusion h
    · simp only [Option.some.injEq, Prod.mk.injEq] at h
      obtain ⟨hd, _, _⟩ := h
      subst hd
      decide
    · rename matchDayName _ = some _ => hday
      simp only [Option.some.injEq, Prod.mk.injEq] at h
      obtain ⟨hd, _, _⟩ := h
      subst hd
      have hmem := matchDayName_mem hday
      simp only [dayAlternatives, List.mem_cons, List.not_mem_nil, or_false] at hmem
      rcases hmem with rfl | rfl | rfl | rfl | rfl | rfl | rfl <;>
        first
          | decide
          | simp_all

theorem lookup_mem_snd {l : List (String × String)} {k v : String}
    (h : l.lookup k = some v) : v ∈ l.map (·.2) := by
  induction l with
  | nil => exact absurd h (by simp)
  | cons a l ih =>
    rw [List.lookup] at h
    by_cases hk : k == a.1
    · rw [hk] at h
      simp [← Option.some.inj h]
    · rw [Bool.eq_false_iff.mpr hk] at h
      simp [ih h]

theorem dictInsert_fst {α : Type} (m : List (String × α)) (k : String) (v : α) :
    ∀ kv ∈ dictInsert m k v, kv.1 = k ∨ kv ∈ m := by
  intro kv hkv
  unfold dictInsert at hkv
  split at hkv
  · obtain ⟨kv', hkv', heq⟩ := List.mem_map.mp hkv
    by_cases h : kv'.1 = k
    · rw [if_pos h] at heq
      left
      rw [← heq]
    · rw [if_neg h] at heq
      right
      rw [← heq]
      exact hkv'
  · rcases List.mem_append.mp hkv with h | h
    · right
      exact h
    · left
      simp at h
      rw [h]

theorem processExams_keys (fmtDate : Nat → String) :
    ∀ (recs : List ExamRec) (m0 m : List (String × String)),
      (∀ kv ∈ m0, kv.1 ∈ examLabels) →
      processExams fmtDate recs m0 = Except.ok m →
      ∀ kv ∈ m, kv.1 ∈ examLabels := by
  intro recs
  induction recs with
  | nil =>
    intro m0 m h0 hp
    rw [processExams] at hp
    exact (Except.ok.inj hp) ▸ h0
  | cons rec rest ih =>
    intro m0 m h0 hp
    rw [processExams] at hp
    split at hp
    · exact ih m0 m h0 hp
    · split at hp
      · exact ih m0 m h0 hp
      · rename_i cat hcat label hlabel
        split at hp
        · exact ih m0 m h0 hp
        · rename_i date_raw hdate
          split at hp
          · exact ih m0 m h0 hp
          · split at hp
            · exact Except.noConfusion hp
            · rename_i millis hmillis
              refine ih _ m ?_ hp
              intro kv hkv
              rcases dictInsert_fst m0 label _ kv hkv with h | h
              · exact h ▸ lookup_mem_snd hlabel
              · exact h0 kv h

theorem processExams_skip_empty_date (fmtDate : Nat → String) (rec : ExamRec)
    (hdate : rec.ExamDate = none ∨ rec.ExamDate = some "") :
    ∀ (l1 l2 : List ExamRec) (m : List (String × String)),
      processExams fmtDate (l1 ++ rec :: l2) m = processExams fmtDate (l1 ++ l2) m := by
  intro l1
  induction l1 with
  | nil =>
    intro l2 m
    simp only [List.nil_append]
    cases hc : rec.CategoryCode with
    | none => simp [processExams, hc]
    | some cat =>
      cases hl : exam_mapping.lookup cat with
      | none => simp [processExams, hc, hl]
      | some lab =>
        rcases hdate with h | h
        · simp [processExams, hc, hl, h]
        · simp [processExams, hc, hl, h]
  | cons a l1 ih =>
    intro l2 m
    simp only [List.cons_append]
    cases hc : a.CategoryCode with
    | none =>
      simp only [processExams, hc]
      exact ih l2 m
    | some cat =>
      cases hl : exam_mapping.lookup cat with
      | none =>
        simp only [processExams, hc, hl]
        exact ih l2 m
      | some lab =>
        cases hd : a.ExamDate with
        | none =>
          simp only [processExams, hc, hl, hd]
          exact ih l2 m
        | some d =>
          by_cases hd0 : d = ""
          · simp only [processExams, hc, hl, hd, if_pos hd0]
            exact ih l2 m
          · simp only [processExams, hc, hl, hd, if_neg hd0]
            cases hm : parseSapDateMillis d with
            | none => rfl
            | some ms => exact ih l2 _

theorem parsePTTime_ne_empty {t v : String} (h : parsePTTime t = some v) : t ≠ "" := by
  intro he
  rw [he] at h
  exact Option.noConfusion h

theorem string_cons_ne_empty (c : Char) (l : List Char) : String.mk (c :: l) ≠ "" := by
  intro h
  have := congrArg String.data h
  simp at this

theorem examTimeSuffix_append_data (tb te : String) :
    (" " ++ tb ++ " - " ++ te).data = ' ' :: (tb.data ++ ' ' :: '-' :: ' ' :: te.data) := by
  simp [String.data_append]

/-- C9: the keys of the exams mapping built by `get_course_data` are drawn
only from the four fixed labels; an exam record whose date is absent or empty
contributes nothing to the mapping (omitted, never stored as an empty
string); and the time suffix is appended exactly when both begin and end
times parse and they are not both `"00:00"` (in which case the stored value
is the date followed by ` HH:MM - HH:MM`). -/
theorem process_exams_spec :
    (∀ (fmtDate : Nat → String) (recs : List ExamRec) (m : List (String × String)),
      processExams fmtDate recs [] = Except.ok m → ∀ kv ∈ m, kv.1 ∈ examLabels) ∧
    (∀ (fmtDate : Nat → String) (rec : ExamRec),
      (rec.ExamDate = none ∨ rec.ExamDate = some "") →
      ∀ (l1 l2 : List ExamRec) (m : List (String × String)),
        processExams fmtDate (l1 ++ rec :: l2) m = processExams fmtDate (l1 ++ l2) m) ∧
    (∀ rec : ExamRec, examTimeSuffix rec ≠ "" ↔
      ∃ tb te, parsePTTime rec.ExamBegTime = some tb ∧
        parsePTTime rec.ExamEndTime = some te ∧ ¬(tb = "00:00" ∧ te = "00:00")) ∧
    (∀ (rec : ExamRec) (tb te : String),
      parsePTTime rec.ExamBegTime = some tb → parsePTTime rec.ExamEndTime = some te →
      ¬(tb = "00:00" ∧ te = "00:00") →
      examTimeSuffix rec = " " ++ tb ++ " - " ++ te) := by
  have hsuffix : ∀ (rec : ExamRec) (tb te : String),
      parsePTTime rec.ExamBegTime = some tb → parsePTTime rec.ExamEndTime = some te →
      examTimeSuffix rec =
        if tb ≠ "00:00" ∨ te ≠ "00:00" then " " ++ tb ++ " - " ++ te else "" := by
    intro rec tb te hb he
    unfold examTimeSuffix
    rw [if_pos ⟨parsePTTime_ne_empty hb, parsePTTime_ne_empty he⟩]
    simp only [hb, he]
  refine ⟨?_, ?_, ?_, ?_⟩
  · intro fmtDate recs m hp
    exact processExams_keys fmtDate recs [] m (by simp) hp
  · intro fmtDate rec hdate
    exact processExams_skip_empty_date fmtDate rec hdate
  · intro rec
    cases hb : parsePTTime rec.ExamBegTime with
    | none =>
      constructor
      · intro hne
        unfold examTimeSuffix at hne
        split at hne
        · simp only [hb] at hne
          exact absurd rfl hne
        · exact absurd rfl hne
      · rintro ⟨tb, te, hb', _, _⟩
        exact Option.noConfusion hb'
    | some tb0 =>
      cases he : parsePTTime rec.ExamEndTime with
      | none =>
        constructor
        · intro hne
          unfold examTimeSuffix at hne
          split at hne
          · simp only [hb, he] at hne
            exact absurd rfl hne
          · exact absurd rfl hne
        · rintro ⟨tb, te, _, he', _⟩
          exact Option.noConfusion he'
      | some te0 =>
        rw [hsuffix rec tb0 te0 hb he]
        by_cases hcond : tb0 ≠ "00:00" ∨ te0 ≠ "00:00"
        · rw [if_pos hcond]
          constructor
          · intro _
            exact ⟨tb0, te0, rfl, rfl, by tauto⟩
          · intro _ hEq
            have hdata := congrArg String.data hEq
            rw [examTimeSuffix_append_data] at hdata
            exact List.noConfusion hdata
        · rw [if_neg hcond]
          push_neg at hcond
          constructor
          · intro h'
            exact absurd rfl h'
          · rintro ⟨tb, te, hb', he', hcond'⟩
            obtain rfl : tb0 = tb := Option.some.inj hb'
            obtain rfl : te0 = te := Option.some.inj he'
            exact absurd ⟨hcond.1, hcond.2⟩ hcond'
  · intro rec tb te hb he hcond
    rw [hsuffix rec tb te hb he, if_pos (by tauto)]
